import Mathlib

/- Verification of the Parker LinkedIn-lookup extension's candidate resolution
   core: a shallow embedding of the regex-based extraction helpers in
   html-parser.js and of the HTTP orchestration in parker-client.js, with
   theorems checking the documented behaviour against the embedding.

   JavaScript semantics captured here:
   - `String.prototype.replace` with a string pattern replaces only the first
     occurrence; with a global regex it replaces left-to-right, non-overlapping.
   - Regex matching is leftmost-first: the engine tries each start index in
     order; a lazy quantifier prefers the shortest extension, a greedy one the
     longest, with backtracking.
   - `\d` is [0-9], `\s` is whitespace, `[^>]` is any char except the listed one.
   Strings are modelled as `List Char`; `String.toLowerCase` is modelled on the
   ASCII range (the inputs of interest are ASCII). -/

namespace Parker

/-- JS `toLowerCase`, modelled on ASCII letters (identity elsewhere). -/
def jsLowerChar (c : Char) : Char :=
  if 'A' ≤ c ∧ c ≤ 'Z' then Char.ofNat (c.toNat + 32) else c

/-- Lowercase every character of a list. -/
def lowerL (s : List Char) : List Char := s.map jsLowerChar

/-- JS `String.prototype.trim`: strip whitespace from both ends. -/
def jsTrimL (s : List Char) : List Char :=
  ((s.dropWhile Char.isWhitespace).reverse.dropWhile Char.isWhitespace).reverse

/-- The regex replace `/\/+$/ -> ""`: drop every trailing slash. -/
def stripTrailingSlashesL (s : List Char) : List Char :=
  (s.reverse.dropWhile (fun c => c = '/')).reverse

/-- JS `String.prototype.replace` with a plain string pattern: replace the
first (leftmost) occurrence of `pat` by `repl`.  All call sites use a
non-empty pattern; an empty pattern is treated as no occurrence. -/
def replaceFirstL (pat repl : List Char) : List Char → List Char
  | [] => []
  | c :: rest =>
    if pat ≠ [] ∧ pat.isPrefixOf (c :: rest) then repl ++ (c :: rest).drop pat.length
    else c :: replaceFirstL pat repl rest

/-- Substring test (used to reason about `replaceFirstL`). -/
def occursSubL (pat : List Char) : List Char → Bool
  | [] => pat.isEmpty
  | c :: rest => pat.isPrefixOf (c :: rest) || occursSubL pat rest

/-- `normalizeLinkedinUrl` from html-parser.js, on character lists:
lowercase, trim, rewrite the three recognized linkedin.com scheme/host
prefixes (first occurrence each), then drop trailing slashes. -/
def normalizeL (s : List Char) : List Char :=
  let u0 := jsTrimL (lowerL s)
  let u1 := replaceFirstL ("https://www.linkedin.com".data) ("https://linkedin.com".data) u0
  let u2 := replaceFirstL ("http://www.linkedin.com".data) ("https://linkedin.com".data) u1
  let u3 := replaceFirstL ("http://linkedin.com".data) ("https://linkedin.com".data) u2
  stripTrailingSlashesL u3

/-- `normalizeLinkedinUrl` from html-parser.js. -/
def normalizeLinkedinUrl (url : String) : String := String.mk (normalizeL url.data)

/-- ASCII letter test, i.e. the class `[a-z]` under the regex `i` flag. -/
def isAsciiLetter (c : Char) : Bool :=
  decide (('a' ≤ c ∧ c ≤ 'z') ∨ ('A' ≤ c ∧ c ≤ 'Z'))

/-- Whether the tail after a hyphen completes a match of `-[a-z]?\d{5,}\d*$`
(case-insensitive): an optional single ASCII letter, then five or more
digits, running to the end of the slug. -/
def idSuffixTail (t : List Char) : Bool :=
  match t with
  | [] => false
  | c :: rest =>
    if isAsciiLetter c then rest.all Char.isDigit && decide (5 ≤ rest.length)
    else (c :: rest).all Char.isDigit && decide (5 ≤ rest.length + 1)

/-- The replace of the end-anchored regex `-[a-z]?\d{5,}\d*$` (i flag) by the
empty string: cut the slug at the leftmost hyphen whose tail matches the
identifier-suffix shape. -/
def stripIdSuffix : List Char → List Char
  | [] => []
  | c :: rest =>
    if c = '-' && idSuffixTail rest then []
    else c :: stripIdSuffix rest

/-- JS `String.prototype.split` with a single-character separator
(empty segments are kept, as in JS). -/
def splitCharL (sep : Char) : List Char → List (List Char)
  | [] => [[]]
  | c :: r =>
    match splitCharL sep r with
    | [] => [[c]]
    | h :: t => if c = sep then [] :: h :: t else (c :: h) :: t

/-- The slug-token derivation of `namesFromLinkedinUrl` (html-parser.js lines
60-65): strip the trailing identifier suffix, split on hyphens, keep parts
longer than one character. -/
def tokensFromSlug (slug : String) : List String :=
  ((splitCharL '-' (stripIdSuffix slug.data)).filter (fun p => 1 < p.length)).map String.mk

/-- The regex `/\/in\/([^/?]+)/`: the leftmost occurrence of `/in/` followed
by at least one character other than `/` or `?`; the capture is the maximal
such run. -/
def slugFromUrl : List Char → Option (List Char)
  | [] => none
  | c :: rest =>
    if ("/in/".data).isPrefixOf (c :: rest) then
      let cap := ((c :: rest).drop 4).takeWhile (fun d => !(d = '/' || d = '?'))
      if cap.isEmpty then slugFromUrl rest else some cap
    else slugFromUrl rest

/-- `namesFromLinkedinUrl` from html-parser.js. -/
def namesFromLinkedinUrl (url : String) : List String :=
  match slugFromUrl url.data with
  | none => []
  | some slug => tokensFromSlug (String.mk slug)

/-- Worker for `replaceAllL`.  The fuel only bounds the recursion depth:
every step consumes at least one character (the pattern is non-empty in the
replacing branch), so fuel equal to the input length never runs out before
the input does. -/
def replaceAllLoop (pat repl : List Char) : Nat → List Char → List Char
  | 0, s => s
  | f + 1, s =>
    match s with
    | [] => []
    | c :: rest =>
      if pat ≠ [] ∧ pat.isPrefixOf (c :: rest) then
        repl ++ replaceAllLoop pat repl f ((c :: rest).drop pat.length)
      else c :: replaceAllLoop pat repl f rest

/-- JS `String.prototype.replace` with a global regex made of literal
characters: replace every occurrence left-to-right, non-overlapping.
All call sites use a non-empty pattern. -/
def replaceAllL (pat repl : List Char) (s : List Char) : List Char :=
  replaceAllLoop pat repl s.length s

/-- `decodeHtmlEntities` from html-parser.js: a fixed sequence of global
replaces.  Each character class `[Xx]` in the source regexes is expanded
into two successive global replaces; this is equivalent because no
replacement string can create or destroy an occurrence of the other
casing of the same entity. -/
def decodeHtmlEntitiesL (s : List Char) : List Char :=
  let s := replaceAllL ("&amp;".data) ("&".data) s
  let s := replaceAllL ("&lt;".data) ("<".data) s
  let s := replaceAllL ("&gt;".data) (">".data) s
  let s := replaceAllL ("&quot;".data) ("\"".data) s
  let s := replaceAllL ("&#39;".data) ("\x27".data) s
  let s := replaceAllL ("&#x2B;".data) ("+".data) s
  let s := replaceAllL ("&#x2b;".data) ("+".data) s
  let s := replaceAllL ("&#43;".data) ("+".data) s
  let s := replaceAllL ("&#x2F;".data) ("/".data) s
  let s := replaceAllL ("&#x2f;".data) ("/".data) s
  let s := replaceAllL ("&#47;".data) ("/".data) s
  let s := replaceAllL ("&#61;".data) ("=".data) s
  let s := replaceAllL ("&#x3D;".data) ("=".data) s
  let s := replaceAllL ("&#x3d;".data) ("=".data) s
  s

/-- `decodeHtmlEntities` on strings. -/
def decodeHtmlEntities (str : String) : String := String.mk (decodeHtmlEntitiesL str.data)

/-- Try a match attempt at every start position, leftmost first (the regex
engine's anchor scan). -/
def scanL (f : List Char → Option α) : List Char → Option α
  | [] => f []
  | c :: rest =>
    match f (c :: rest) with
    | some x => some x
    | none => scanL f rest

/-- Consume a literal. -/
def litAfter (lit : List Char) (s : List Char) : Option (List Char) :=
  if lit.isPrefixOf s then some (s.drop lit.length) else none

/-- Consume `\s+` greedily (at least one whitespace character; the following
literal at every call site starts with a non-whitespace character, so the
greedy run is forced). -/
def wsPlus (s : List Char) : Option (List Char) :=
  match s with
  | c :: _ => if c.isWhitespace then some (s.dropWhile Char.isWhitespace) else none
  | [] => none

/-- A quoted value: the regex piece `([^"]+)"` — a non-empty run of
non-quote characters followed by the closing quote.  Returns the capture
and the suffix after the closing quote. -/
def quotedSpan (s : List Char) : Option (List Char × List Char) :=
  let cap := s.takeWhile (fun c => c ≠ '"')
  match s.dropWhile (fun c => c ≠ '"') with
  | '"' :: rest => if cap.isEmpty then none else some (cap, rest)
  | _ => none

/-- All start positions at which `lit` occurs in `s`. -/
def litPositions (lit : List Char) : List Char → List Nat
  | [] => if lit.isEmpty then [0] else []
  | c :: rest =>
    let tailPos := (litPositions lit rest).map (· + 1)
    if lit.isPrefixOf (c :: rest) then 0 :: tailPos else tailPos

/-- Attempt, at one anchor, the regex
`<meta\s+name="csrf-token"\s+content="([^"]+)"`. -/
def metaTokenAt (s : List Char) : Option (List Char) := do
  let r1 ← litAfter ("<meta".data) s
  let r2 ← wsPlus r1
  let r3 ← litAfter ("name=\"csrf-token\"".data) r2
  let r4 ← wsPlus r3
  let r5 ← litAfter ("content=\"".data) r4
  let (cap, _) ← quotedSpan r5
  pure cap

/-- Attempt, at one anchor, the regex
`<input[^>]*name="authenticity_token"[^>]*value="([^"]+)"`.
Everything through `value="` must lie before the first `>` after `<input`
(the `[^>]*` pieces cannot cross it); the quoted capture itself may run past
it.  Backtracking from greedy `[^>]*` selects the rightmost viable
occurrence of each literal, so candidate positions are tried largest
first. -/
def inputNameValueAt (s : List Char) : Option (List Char) :=
  let nameLit := ("name=\"authenticity_token\"".data)
  let valueLit := ("value=\"".data)
  if ("<input".data).isPrefixOf s then
    let rest := s.drop 6
    let region := rest.takeWhile (fun c => c ≠ '>')
    ((litPositions nameLit region).reverse).findSome? (fun p =>
      (((litPositions valueLit region).filter (fun q => p + nameLit.length ≤ q)).reverse).findSome?
        (fun q => (quotedSpan (rest.drop (q + valueLit.length))).map (fun x => x.1)))
  else none

/-- Attempt, at one anchor, the regex
`<input[^>]*value="([^"]+)"[^>]*name="authenticity_token"`.
The quoted capture may contain `>`; the trailing `name=...` literal must lie
before the first `>` that follows the closing quote. -/
def inputValueNameAt (s : List Char) : Option (List Char) :=
  let nameLit := ("name=\"authenticity_token\"".data)
  let valueLit := ("value=\"".data)
  if ("<input".data).isPrefixOf s then
    let rest := s.drop 6
    let region := rest.takeWhile (fun c => c ≠ '>')
    ((litPositions valueLit region).reverse).findSome? (fun q =>
      match quotedSpan (rest.drop (q + valueLit.length)) with
      | none => none
      | some (cap, after) =>
          if occursSubL nameLit (after.takeWhile (fun c => c ≠ '>')) then some cap else none)
  else none

/-- `extractCsrfToken` from html-parser.js: the three tag shapes tried in
source order, the first match decoded, empty string when none match. -/
def extractCsrfTokenL (html : List Char) : List Char :=
  match scanL metaTokenAt html with
  | some cap => decodeHtmlEntitiesL cap
  | none =>
    match scanL inputNameValueAt html with
    | some cap => decodeHtmlEntitiesL cap
    | none =>
      match scanL inputValueNameAt html with
      | some cap => decodeHtmlEntitiesL cap
      | none => []

/-- `extractCsrfToken` on strings. -/
def extractCsrfToken (html : String) : String := String.mk (extractCsrfTokenL html.data)

/-- Case-insensitive character comparison (the regex `i` flag, ASCII). -/
def prefixCI : List Char → List Char → Bool
  | [], _ => true
  | _ :: _, [] => false
  | p :: ps, c :: cs => jsLowerChar p = jsLowerChar c && prefixCI ps cs

/-- Consume a literal case-insensitively, keeping the original characters
of the remainder. -/
def litAfterCI (lit : List Char) (s : List Char) : Option (List Char) :=
  if prefixCI lit s then some (s.drop lit.length) else none

/-- The suffix after the first `>` — the regex piece `[^>]*>`, which is
forced to stop at the first `>`. -/
def afterFirstGt : List Char → Option (List Char)
  | [] => none
  | c :: r => if c = '>' then some r else afterFirstGt r

/-- Case-insensitive split at the first occurrence of `pat`: returns the
part before it and the part after it (a lazy capture `([\s\S]*?)pat`). -/
def splitAtFirstCI (pat : List Char) : List Char → Option (List Char × List Char)
  | [] => if pat.isEmpty then some ([], []) else none
  | c :: rest =>
    if prefixCI pat (c :: rest) then some ([], (c :: rest).drop pat.length)
    else
      match splitAtFirstCI pat rest with
      | some (a, b) => some (c :: a, b)
      | none => none

/-- Worker for `stripTags`.  The fuel only bounds the recursion depth: every
step consumes at least one character, so the remaining input is always at
most as long as the fuel and the fuel never runs out before the input does. -/
def stripTagsLoop : Nat → List Char → List Char
  | 0, _ => []
  | f + 1, s =>
    match s with
    | [] => []
    | c :: r =>
      if c = '<' && r.contains '>' then stripTagsLoop f ((r.dropWhile (fun d => d ≠ '>')).tail)
      else c :: stripTagsLoop f r

/-- The global replace of `<[^>]*>` by the empty string: remove each
leftmost tag-like span; a `<` with no later `>` is kept verbatim. -/
def stripTags (s : List Char) : List Char := stripTagsLoop s.length s

/-- One anchor attempt of `<open[^>]*>([\s\S]*?)</close>`: the open literal,
everything up to the first `>`, then the lazy capture up to the first close
literal; returns the capture and the remainder after the close literal. -/
def tagBlockAt (openLit closeLit : List Char) (s : List Char) : Option (List Char × List Char) := do
  let r ← litAfterCI openLit s
  let ag ← afterFirstGt r
  splitAtFirstCI closeLit ag

/-- Repeated `exec` of a global tag-block regex: collect the captures of
successive non-overlapping matches.  The fuel argument only bounds the
number of iterations; each match consumes at least one character, so fuel
equal to the input length never truncates. -/
def blockList (openLit closeLit : List Char) : Nat → List Char → List (List Char)
  | 0, _ => []
  | f + 1, s =>
    match scanL (tagBlockAt openLit closeLit) s with
    | none => []
    | some (content, rest) => content :: blockList openLit closeLit f rest

/-- The row captures of `<tr[^>]*>([\s\S]*?)</tr>` (global, i flag). -/
def rowsOf (s : List Char) : List (List Char) := blockList ("<tr".data) ("</tr>".data) s.length s

/-- The cell captures of `<td[^>]*>([\s\S]*?)</td>` (global, i flag). -/
def cellsOf (s : List Char) : List (List Char) := blockList ("<td".data) ("</td>".data) s.length s

/-- The capture of `<table[\s\S]*?>([\s\S]*?)</table>` (i flag): content of
the first table.  The lazy `[\s\S]*?>` stops at the first `>` after
`<table`; if no `</table>` follows it, no later `>` can succeed either, so
the anchor fails and scanning resumes at the next position. -/
def tableContent (html : List Char) : Option (List Char) :=
  scanL (fun s => (tagBlockAt ("<table".data) ("</table>".data) s).map (fun x => x.1)) html

/-- The value part `\s*<dd[^>]*>([\s\S]*?)</dd>` shared by the three
label/value field regexes. -/
def ddValueAfter (s : List Char) : Option (List Char) := do
  let r := s.dropWhile Char.isWhitespace
  let r1 ← litAfterCI ("<dd".data) r
  let ag ← afterFirstGt r1
  let (content, _) ← splitAtFirstCI ("</dd>".data) ag
  pure content

/-- One anchor attempt of `Sourced\s+By</dt>\s*<dd[^>]*>([\s\S]*?)</dd>` (i flag). -/
def sourcedByAt (s : List Char) : Option (List Char) := do
  let r1 ← litAfterCI ("Sourced".data) s
  let r2 ← wsPlus r1
  let r3 ← litAfterCI ("By</dt>".data) r2
  ddValueAfter r3

/-- One anchor attempt of `Current\s+Owner</dt>\s*<dd[^>]*>([\s\S]*?)</dd>` (i flag). -/
def currentOwnerAt (s : List Char) : Option (List Char) := do
  let r1 ← litAfterCI ("Current".data) s
  let r2 ← wsPlus r1
  let r3 ← litAfterCI ("Owner</dt>".data) r2
  ddValueAfter r3

/-- One anchor attempt of `>\s*Location</dt>\s*<dd[^>]*>([\s\S]*?)</dd>` (i flag). -/
def locationAt (s : List Char) : Option (List Char) := do
  let r1 ← litAfterCI (">".data) s
  let r2 := r1.dropWhile Char.isWhitespace
  let r3 ← litAfterCI ("Location</dt>".data) r2
  ddValueAfter r3

/-- Exactly `k` digits (one greedy alternative of a bounded `\d` repetition). -/
def grabDigits (k : Nat) (s : List Char) : Option (List Char × List Char) :=
  let d := s.take k
  if d.length = k && d.all Char.isDigit then some (d, s.drop k) else none

/-- One alternative of the date pattern `\d{1,2}/\d{1,2}/\d{2,4}` with fixed
digit counts. -/
def dateCombo (k1 k2 k3 : Nat) (s : List Char) : Option (List Char) := do
  let (a, r1) ← grabDigits k1 s
  let r2 ← litAfter ("/".data) r1
  let (b, r3) ← grabDigits k2 r2
  let r4 ← litAfter ("/".data) r3
  let (c, _) ← grabDigits k3 r4
  pure (a ++ '/' :: (b ++ '/' :: c))

/-- The date pattern `\d{1,2}/\d{1,2}/\d{2,4}` anchored at this position:
greedy repetitions with backtracking, so larger digit counts are tried
first, innermost fastest. -/
def matchDateFrom (s : List Char) : Option (List Char) :=
  (dateCombo 2 2 4 s) <|> (dateCombo 2 2 3 s) <|> (dateCombo 2 2 2 s) <|>
  (dateCombo 2 1 4 s) <|> (dateCombo 2 1 3 s) <|> (dateCombo 2 1 2 s) <|>
  (dateCombo 1 2 4 s) <|> (dateCombo 1 2 3 s) <|> (dateCombo 1 2 2 s) <|>
  (dateCombo 1 1 4 s) <|> (dateCombo 1 1 3 s) <|> (dateCombo 1 1 2 s)

/-- The lazy bounded gap `[\s\S]{0,300}?` before the date pattern: try the
date at offsets 0, 1, ..., 300 in that order. -/
def dateScan : Nat → List Char → Option (List Char)
  | 0, s => matchDateFrom s
  | f + 1, s =>
    match matchDateFrom s with
    | some d => some d
    | none =>
      match s with
      | [] => none
      | _ :: rest => dateScan f rest

/-- One anchor attempt of `LABEL[\s\S]{0,300}?(\d{1,2}/\d{1,2}/\d{2,4})` (i flag). -/
def timelineLabelAt (lbl : List Char) (s : List Char) : Option (List Char) := do
  let r ← litAfterCI lbl s
  dateScan 300 r

/-- The date shown for one timeline label: the capture of the first match,
or the literal `N/A`. -/
def timelineDate (html : List Char) (lbl : List Char) : String :=
  match scanL (timelineLabelAt lbl) html with
  | some d => String.mk d
  | none => "N/A"

/-- One anchor attempt of `href="([^"]*linkedin\.com\/in\/[^"]+)"` (i flag):
the quoted value must contain `linkedin.com/in/` with at least one more
character before the closing quote; the capture is the whole quoted value. -/
def linkedinHrefAt (s : List Char) : Option (List Char) := do
  let r ← litAfterCI ("href=\"".data) s
  let (v, _) ← quotedSpan r
  if occursSubL (lowerL ("linkedin.com/in/".data)) (lowerL v.dropLast) then pure v else none

/-- First LinkedIn profile anchor in a fragment. -/
def findLinkedInHref (s : List Char) : Option (List Char) := scanL linkedinHrefAt s

/-- One anchor attempt of `href="(\/candidates\/\d+)"` (case-sensitive):
the quoted value is exactly `/candidates/` followed by digits. -/
def candPathAt (s : List Char) : Option (List Char) := do
  let r ← litAfter ("href=\"/candidates/".data) s
  let ds := r.takeWhile Char.isDigit
  if ds.isEmpty then none
  else
    match r.drop ds.length with
    | '"' :: _ => some (("/candidates/".data) ++ ds)
    | _ => none

/-- First candidate detail-page link in a fragment. -/
def findCandPath (s : List Char) : Option (List Char) := scanL candPathAt s

/-- One anchor attempt of the unanchored `\/candidates\/(\d+)`. -/
def candidateIdAt (s : List Char) : Option (List Char) := do
  let r ← litAfter ("/candidates/".data) s
  let ds := r.takeWhile Char.isDigit
  if ds.isEmpty then none else some ds

/-- The capture of `\/candidates\/(\d+)` anywhere in the URL. -/
def extractCandidateId (url : List Char) : Option (List Char) := scanL candidateIdAt url

/-- The end-anchored test `\/candidates\/\d+$`: the URL ends in
`/candidates/` followed by one or more digits. -/
def hasCandidatesIdSuffix (url : String) : Bool :=
  let rev := url.data.reverse
  let ds := rev.takeWhile Char.isDigit
  !ds.isEmpty && (("/candidates/".data).reverse).isPrefixOf (rev.drop ds.length)

/-- One submission row of the candidate detail page. -/
structure Submission where
  role : String
  company : String
  stage : String
  dates : String
  owner : String
deriving DecidableEq, Repr

/-- One timeline milestone entry. -/
structure TimelineEntry where
  label : String
  date : String
deriving DecidableEq, Repr

/-- The candidate record built by `parseCandidatePage`.  `Option` fields
model JS object keys that are only conditionally assigned. -/
structure CandidateRecord where
  id : String
  url : String
  name : Option String
  sourced_by : Option String
  current_owner : Option String
  location : Option String
  timeline : List TimelineEntry
  linkedin_url : Option String
  submissions : List Submission
deriving DecidableEq, Repr

/-- The six fixed milestone labels, in source order. -/
def timelineLabels : List String :=
  ["Sourced", "First Engaged", "Handed Off", "First screened", "First Submitted",
   "Most Recently Submitted"]

/-- `parseSubmissionsTable` from html-parser.js: first table, rows minus the
header, rows with at least five cells kept. -/
def parseSubmissionsTable (html : List Char) : List Submission :=
  match tableContent html with
  | none => []
  | some t =>
    ((rowsOf t).drop 1).filterMap (fun row =>
      let cells := (cellsOf row).map (fun cell => String.mk (jsTrimL (stripTags cell)))
      match cells with
      | role :: company :: stage :: dates :: owner :: _ =>
        some { role := role, company := company, stage := stage, dates := dates, owner := owner }
      | _ => none)

/-- A conditionally-assigned text field: tags stripped, trimmed, assigned
only when non-empty. -/
def nonEmptyField (content : List Char) : Option String :=
  let v := jsTrimL (stripTags content)
  if v.isEmpty then none else some (String.mk v)

/-- `parseCandidatePage` from html-parser.js. -/
def parseCandidatePage (html finalUrl : String) : CandidateRecord :=
  let h := html.data
  { id := match extractCandidateId finalUrl.data with
      | some ds => String.mk ds
      | none => ""
  , url := finalUrl
  , name := (scanL (tagBlockAt ("<h1".data) ("</h1>".data)) h).map
      (fun x => String.mk (jsTrimL (stripTags x.1)))
  , sourced_by := (scanL sourcedByAt h).bind nonEmptyField
  , current_owner := (scanL currentOwnerAt h).bind nonEmptyField
  , location := (scanL locationAt h).bind (fun content =>
      match nonEmptyField content with
      | some v => if v = "N/A" then none else some v
      | none => none)
  , timeline := timelineLabels.map (fun lbl => { label := lbl, date := timelineDate h lbl.data })
  , linkedin_url := (findLinkedInHref h).map String.mk
  , submissions := parseSubmissionsTable h }

/-- `findLinkedInMatchInSearchResults` from html-parser.js. -/
def findLinkedInMatchInSearchResults (html targetLinkedinUrl : String) : Option String :=
  let normalizedTarget := normalizeLinkedinUrl targetLinkedinUrl
  match tableContent html.data with
  | none => none
  | some t =>
    ((rowsOf t).drop 1).findSome? (fun row =>
      match findLinkedInHref row with
      | none => none
      | some v =>
        if normalizeLinkedinUrl (String.mk v) = normalizedTarget then
          (findCandPath row).map String.mk
        else none)

/-- One anchor attempt of the owner `<select ...>` regex: the name literal
must lie before the first `>` after `<select`; the capture is the content up
to the first `</select>`. -/
def selectBlockAt (s : List Char) : Option (List Char) := do
  let r ← litAfterCI ("<select".data) s
  let region := r.takeWhile (fun c => c ≠ '>')
  if occursSubL (lowerL ("name=\"candidate[candidate_owner_id]\"".data)) (lowerL region) then
    do
      let ag ← afterFirstGt r
      let (content, _) ← splitAtFirstCI ("</select>".data) ag
      pure content
  else none

/-- The owner select element's inner HTML, if present. -/
def selectBlock (html : List Char) : Option (List Char) := scanL selectBlockAt html

/-- The `value="(\d+)"` piece of the option regex at offset `q` of the
opening-tag region (7 is the length of the literal `value="`): one or more
digits followed directly by the closing quote. -/
def optionValueAt (region : List Char) (q : Nat) : Option (List Char) :=
  let afterV := region.drop (q + 7)
  let ds := afterV.takeWhile Char.isDigit
  if ds.isEmpty then none
  else
    match afterV.drop ds.length with
    | '"' :: _ => some ds
    | _ => none

/-- One anchor attempt of `<option[^>]*value="(\d+)"[^>]*>([^<]*)</option>`
(i flag).  The `value="digits"` part must lie before the first `>` after
`<option`; greedy `[^>]*` backtracking selects the rightmost such
occurrence.  Returns ((value digits, label), remainder after the close tag). -/
def optionTagAt (s : List Char) : Option ((List Char × List Char) × List Char) := do
  let valueLit := ("value=\"".data)
  let r ← litAfterCI ("<option".data) s
  let region := r.takeWhile (fun c => c ≠ '>')
  let v? := (((litPositions (lowerL valueLit) (lowerL region))).reverse).findSome?
    (optionValueAt region)
  match v? with
  | none => none
  | some ds =>
    let ag ← afterFirstGt r
    let label := ag.takeWhile (fun c => c ≠ '<')
    let rest ← litAfterCI ("</option>".data) (ag.drop label.length)
    pure ((ds, label), rest)

/-- Repeated `exec` of the option regex (fuel bounds iterations; each match
consumes at least one character). -/
def optionsLoop : Nat → List Char → List (List Char × List Char)
  | 0, _ => []
  | f + 1, s =>
    match scanL optionTagAt s with
    | none => []
    | some (pair, rest) => pair :: optionsLoop f rest

/-- All (value, label) pairs of the option tags in a select body. -/
def optionsOf (content : List Char) : List (List Char × List Char) :=
  optionsLoop content.length content

/-- `findOwnerIdForEmail` from html-parser.js. -/
def findOwnerIdForEmail (html email : String) : String :=
  if email = "" then ""
  else
    match selectBlock html.data with
    | none => ""
    | some content =>
      match (optionsOf content).findSome? (fun p =>
          if lowerL (jsTrimL p.2) = lowerL email.data then some p.1 else none) with
      | some v => String.mk v
      | none => ""

/- ── parker-client.js ──────────────────────────────────────────────────────
   The network is modelled as an oracle mapping each request to either a
   thrown error (a JS Error, represented by its message string) or a
   response; `await r.text()` is folded into the response body.  Each
   operation returns, next to its result, the list of requests it issued, so
   that absence-of-effect properties can be stated.  `chrome.storage.sync`
   reads are modelled by the `storageCreds` oracle (missing keys are `none`);
   `new Date()` by the `today` field. -/

/-- An HTTP request issued through `fetch`. -/
inductive Request where
  | get : String → Request
  | post : String → List (String × String) → Request
deriving DecidableEq, Repr

/-- A fetch response after redirects, with its body text. -/
structure Response where
  ok : Bool
  status : Nat
  url : String
  body : String
deriving DecidableEq, Repr

deriving instance DecidableEq for Except

/-- The ambient world of the service worker. -/
structure Env where
  respond : Request → Except String Response
  storageCreds : Except String (Option String × Option String)
  today : String

/-- `err.message || fallback` in a catch block. -/
def jsErrMessage (e dflt : String) : String := if e = "" then dflt else e

/-- Substring test on strings (JS `includes`). -/
def includesStr (pat s : String) : Bool := occursSubL pat.data s.data

/-- An uppercase hex digit. -/
def hexDigitChar (n : Nat) : Char :=
  if n < 10 then Char.ofNat (48 + n) else Char.ofNat (55 + n)

/-- UTF-8 byte sequence of one character. -/
def utf8Bytes (c : Char) : List Nat :=
  let n := c.toNat
  if n < 0x80 then [n]
  else if n < 0x800 then [0xC0 + n / 0x40, 0x80 + n % 0x40]
  else if n < 0x10000 then [0xE0 + n / 0x1000, 0x80 + (n / 0x40) % 0x40, 0x80 + n % 0x40]
  else [0xF0 + n / 0x40000, 0x80 + (n / 0x1000) % 0x40, 0x80 + (n / 0x40) % 0x40, 0x80 + n % 0x40]

/-- `application/x-www-form-urlencoded` encoding of one component, as
produced by `URLSearchParams`: alphanumerics and `*-._` kept, space to `+`,
everything else percent-encoded from its UTF-8 bytes. -/
def encodeFormComponent (s : String) : String :=
  String.mk (s.data.flatMap (fun c =>
    if c.isAlphanum || c = '*' || c = '-' || c = '.' || c = '_' then [c]
    else if c = ' ' then ['+']
    else (utf8Bytes c).flatMap (fun b => ['%', hexDigitChar (b / 16), hexDigitChar (b % 16)])))

/-- `URLSearchParams(pairs).toString()`. -/
def encodeQueryPairs (l : List (String × String)) : String :=
  String.intercalate "&" (l.map (fun p => encodeFormComponent p.1 ++ "=" ++ encodeFormComponent p.2))

/-- The Parker origin. -/
def PARKER_BASE : String := "https://parker.candidatelabs.com"

/-- `isLoggedIn` from parker-client.js: GET the root page; logged in when the
fetch succeeds, the resolved URL is not the sign-in page, and the page has a
sign-out link.  A thrown error is caught and yields `false`. -/
def isLoggedIn (env : Env) : Bool × List Request :=
  let req := Request.get (PARKER_BASE ++ "/")
  match env.respond req with
  | .error _ => (false, [req])
  | .ok r =>
    (r.ok && !(includesStr ("sign_in") r.url) && includesStr ("sign_out") r.body, [req])

/-- Result of `doLogin` (`{ok, message-or-error}`). -/
structure LoginRes where
  ok : Bool
  msg : String
deriving DecidableEq, Repr

/-- `doLogin` from parker-client.js. -/
def doLogin (env : Env) (email password : String) : LoginRes × List Request :=
  let req1 := Request.get (PARKER_BASE ++ "/users/sign_in")
  match env.respond req1 with
  | .error e => ({ ok := false, msg := jsErrMessage e ("Could not connect to Parker.") }, [req1])
  | .ok signInPage =>
    let token := extractCsrfToken signInPage.body
    if token = "" then
      ({ ok := false, msg := "Could not extract CSRF token from login page." }, [req1])
    else
      let req2 := Request.post (PARKER_BASE ++ "/users/sign_in")
        [("authenticity_token", token), ("user[email]", email), ("user[password]", password),
         ("commit", "Sign in")]
      match env.respond req2 with
      | .error e =>
        ({ ok := false, msg := jsErrMessage e ("Could not connect to Parker.") }, [req1, req2])
      | .ok r =>
        (if r.ok && !(includesStr ("sign_in") r.url) then
          { ok := true, msg := "Logged in to Parker." }
        else
          { ok := false, msg := "Login failed. Check email/password." }, [req1, req2])

/-- `ensureLoggedIn` from parker-client.js.  It has no try/catch of its own:
a storage failure propagates to the caller (modelled by `Except.error`). -/
def ensureLoggedIn (env : Env) : Except String Bool × List Request :=
  let (li, t1) := isLoggedIn env
  if li then (.ok true, t1)
  else
    match env.storageCreds with
    | .error e => (.error e, t1)
    | .ok (em, pw) =>
      if em.getD "" = "" ∨ pw.getD "" = "" then (.ok false, t1)
      else
        let (lr, t2) := doLogin env (em.getD "") (pw.getD "")
        (.ok lr.ok, t1 ++ t2)

/-- `lookupByUrlCheck` from parker-client.js (strategy 1).  The whole body is
wrapped in a catch returning null. -/
def lookupByUrlCheck (env : Env) (linkedinUrl : String) : Option CandidateRecord × List Request :=
  let req1 := Request.get (PARKER_BASE ++ "/candidates/linkedin_url_check")
  match env.respond req1 with
  | .error _ => (none, [req1])
  | .ok checkPage =>
    if !checkPage.ok then (none, [req1])
    else
      let token := extractCsrfToken checkPage.body
      let req2 := Request.post (PARKER_BASE ++ "/candidates/check_linkedin_url")
        [("authenticity_token", token), ("linkedin_url", linkedinUrl)]
      match env.respond req2 with
      | .error _ => (none, [req1, req2])
      | .ok r =>
        (if r.ok && hasCandidatesIdSuffix r.url then some (parseCandidatePage r.body r.url)
         else none, [req1, req2])

/-- One iteration of the search loops of strategies 2 and 3: a name-contains
search, a scan of the results, and on a match the detail-page fetch+parse.
Any thrown error or miss yields `none` so the caller's loop continues. -/
def searchOnce (env : Env) (targetUrl term : String) : Option CandidateRecord × List Request :=
  let req1 := Request.get (PARKER_BASE ++ "/candidates?" ++
    encodeQueryPairs [("q[first_name_or_last_name_cont]", term), ("commit", "Search")])
  match env.respond req1 with
  | .error _ => (none, [req1])
  | .ok r =>
    if !r.ok then (none, [req1])
    else
      match findLinkedInMatchInSearchResults r.body targetUrl with
      | none => (none, [req1])
      | some candidatePath =>
        let req2 := Request.get (PARKER_BASE ++ candidatePath)
        match env.respond req2 with
        | .error _ => (none, [req1, req2])
        | .ok detail =>
          (if detail.ok then some (parseCandidatePage detail.body detail.url) else none,
           [req1, req2])

/-- The for-loop over search terms shared by strategies 2 and 3. -/
def searchLoop (env : Env) (targetUrl : String) : List String → Option CandidateRecord × List Request
  | [] => (none, [])
  | t :: ts =>
    match searchOnce env targetUrl t with
    | (some c, tr) => (some c, tr)
    | (none, tr) =>
      let (res, tr2) := searchLoop env targetUrl ts
      (res, tr ++ tr2)

/-- `lookupByNameSearch` from parker-client.js (strategy 2). -/
def lookupByNameSearch (env : Env) (linkedinUrl : String) : Option CandidateRecord × List Request :=
  let nameParts := namesFromLinkedinUrl linkedinUrl
  if nameParts.isEmpty then (none, [])
  else searchLoop env linkedinUrl nameParts

/-- `lookupByExplicitName` from parker-client.js (strategy 3).  The search
params use `term.trim()`, which is the only use of each term, so the trim is
applied up front. -/
def lookupByExplicitName (env : Env) (linkedinUrl firstName lastName : String) :
    Option CandidateRecord × List Request :=
  let searchTerms := ([firstName, lastName].filter (fun n => !(String.mk (jsTrimL n.data)).isEmpty))
  if searchTerms.isEmpty then (none, [])
  else searchLoop env linkedinUrl (searchTerms.map (fun n => String.mk (jsTrimL n.data)))

/-- The JS object update `candidate.linkedin_url = candidate.linkedin_url || linkedinUrl`. -/
def withLinkedinFallback (c : CandidateRecord) (url : String) : CandidateRecord :=
  if c.linkedin_url.getD "" = "" then { c with linkedin_url := some url } else c

/-- The result of `lookupCandidate`: `{found:true, candidate}`,
`{found:false}`, or `{error}`. -/
inductive LookupResult where
  | found : CandidateRecord → LookupResult
  | notFound : LookupResult
  | errorResult : String → LookupResult
deriving DecidableEq, Repr

/-- `lookupCandidate` from parker-client.js. -/
def lookupCandidate (env : Env) (linkedinUrl firstName lastName : String) :
    LookupResult × List Request :=
  match ensureLoggedIn env with
  | (.error e, t0) => (.errorResult (jsErrMessage e ("Failed to look up candidate.")), t0)
  | (.ok false, t0) =>
    (.errorResult
      ("Not authenticated with Parker. Open extension settings to configure credentials."), t0)
  | (.ok true, t0) =>
    match lookupByUrlCheck env linkedinUrl with
    | (some c, t1) => (.found (withLinkedinFallback c linkedinUrl), t0 ++ t1)
    | (none, t1) =>
      match lookupByNameSearch env linkedinUrl with
      | (some c, t2) => (.found (withLinkedinFallback c linkedinUrl), t0 ++ t1 ++ t2)
      | (none, t2) =>
        if firstName = "" ∧ lastName = "" then (.notFound, t0 ++ t1 ++ t2)
        else
          match lookupByExplicitName env linkedinUrl firstName lastName with
          | (some c, t3) => (.found (withLinkedinFallback c linkedinUrl), t0 ++ t1 ++ t2 ++ t3)
          | (none, t3) => (.notFound, t0 ++ t1 ++ t2 ++ t3)

/-- The result of `createCandidate`: `{ok:true, alreadyExisted, candidate}`
or `{ok:false, error}`. -/
inductive CreateResult where
  | okResult : Bool → CandidateRecord → CreateResult
  | failure : String → CreateResult
deriving DecidableEq, Repr

/-- One anchor attempt of
`class="[^"]*(?:error|alert)[^"]*"[^>]*>([^<]+)` (i flag), used to extract a
validation message from a rejected create response. -/
def errorSnippetAt (s : List Char) : Option (List Char) := do
  let r ← litAfterCI ("class=\"".data) s
  let v := r.takeWhile (fun c => c ≠ '"')
  match r.drop v.length with
  | '"' :: afterQ =>
    if occursSubL (lowerL ("error".data)) (lowerL v)
        || occursSubL (lowerL ("alert".data)) (lowerL v) then
      do
        let ag ← afterFirstGt afterQ
        let cap := ag.takeWhile (fun c => c ≠ '<')
        if cap.isEmpty then none else some cap
    else none
  | _ => none

/-- The failure message built after a rejected create POST. -/
def createFailureMsg (createHtml : String) (status : Nat) : String :=
  let errorMsg := match scanL errorSnippetAt createHtml.data with
    | some cap => String.mk (jsTrimL cap)
    | none => "HTTP " ++ toString status
  "Parker rejected the candidate: " ++ errorMsg

/-- The creation form payload (parker-client.js): the base fields, plus the
owner and sourced-by fields only when an owner id was resolved. -/
def buildCreatePayload (token firstName lastName linkedinUrl sourced ownerId : String) :
    List (String × String) :=
  [("authenticity_token", token), ("candidate[first_name]", firstName),
   ("candidate[last_name]", lastName), ("candidate[linkedin_url]", linkedinUrl),
   ("candidate[sourced_date]", sourced), ("commit", "Create Candidate")] ++
  (if ownerId = "" then [] else
    [("candidate[candidate_owner_id]", ownerId), ("candidate[sourced_by_id]", ownerId)])

/-- `createCandidate` from parker-client.js (the variant whose creation flow
starts with the LinkedIn existence check): ensure the session, run the
existence-check POST, return the parsed record with `alreadyExisted` when
the resolved URL is a detail page, otherwise resolve the owner id from the
form and the stored email and submit the creation POST. -/
def createCandidate (env : Env) (firstName lastName linkedinUrl sourcedDate : String) :
    CreateResult × List Request :=
  match ensureLoggedIn env with
  | (.error e, t0) => (.failure (jsErrMessage e ("Failed to create candidate.")), t0)
  | (.ok false, t0) => (.failure ("Not authenticated with Parker."), t0)
  | (.ok true, t0) =>
    let req1 := Request.get (PARKER_BASE ++ "/candidates/linkedin_url_check")
    match env.respond req1 with
    | .error e => (.failure (jsErrMessage e ("Failed to create candidate.")), t0 ++ [req1])
    | .ok checkPage =>
      let token := extractCsrfToken checkPage.body
      let req2 := Request.post (PARKER_BASE ++ "/candidates/check_linkedin_url")
        [("authenticity_token", token), ("linkedin_url", linkedinUrl)]
      match env.respond req2 with
      | .error e =>
        (.failure (jsErrMessage e ("Failed to create candidate.")), t0 ++ [req1, req2])
      | .ok urlCheckResp =>
        if hasCandidatesIdSuffix urlCheckResp.url then
          (.okResult true (parseCandidatePage urlCheckResp.body urlCheckResp.url),
           t0 ++ [req1, req2])
        else
          let createToken := extractCsrfToken urlCheckResp.body
          let sourced := if sourcedDate = "" then env.today else sourcedDate
          match env.storageCreds with
          | .error e =>
            (.failure (jsErrMessage e ("Failed to create candidate.")), t0 ++ [req1, req2])
          | .ok (parkerEmail, _) =>
            let ownerId := findOwnerIdForEmail urlCheckResp.body (parkerEmail.getD "")
            let req3 := Request.post (PARKER_BASE ++ "/candidates")
              (buildCreatePayload createToken firstName lastName linkedinUrl sourced ownerId)
            match env.respond req3 with
            | .error e =>
              (.failure (jsErrMessage e ("Failed to create candidate.")), t0 ++ [req1, req2, req3])
            | .ok createResp =>
              (if createResp.ok && (extractCandidateId createResp.url.data).isSome then
                .okResult false (parseCandidatePage createResp.body createResp.url)
              else
                .failure (createFailureMsg createResp.body createResp.status),
               t0 ++ [req1, req2, req3])

/-- Whether a request is a creation submission: a POST to the creation
endpoint `/candidates` itself. -/
def isCreationPost (r : Request) : Bool :=
  match r with
  | .post u _ => u = PARKER_BASE ++ "/candidates"
  | .get _ => false

/- ── Specification-side definitions ────────────────────────────────────────
   Definitions in this block transcribe claim wordings (original or amended)
   rather than the source; each is compared with the corresponding source
   embedding above. -/

/-- Claim wording for the identifier suffix of the slug-token derivation:
`an alphanumeric token of 5 or more characters` after the hyphen. -/
def claimIdSuffixTail (t : List Char) : Bool :=
  t.all Char.isAlphanum && decide (5 ≤ t.length)

/-- The strip step as the claim words it: cut at the (leftmost) hyphen
followed by an alphanumeric token of five or more characters running to the
end. -/
def claimStripIdSuffix : List Char → List Char
  | [] => []
  | c :: rest =>
    if c = '-' && claimIdSuffixTail rest then []
    else c :: claimStripIdSuffix rest

/-- The slug-token derivation exactly as the claim describes it. -/
def claimTokensFromSlug (slug : String) : List String :=
  ((splitCharL '-' (claimStripIdSuffix slug.data)).filter (fun p => 1 < p.length)).map String.mk

/-- A meta tag with content-before-name attribute ordering, as the original
claim describes shape (a): `<meta\s+content="([^"]+)"\s+name="csrf-token"`. -/
def metaContentFirstAt (s : List Char) : Option (List Char) := do
  let r1 ← litAfter ("<meta".data) s
  let r2 ← wsPlus r1
  let r3 ← litAfter ("content=\"".data) r2
  let (cap, after) ← quotedSpan r3
  let r4 ← wsPlus after
  let _ ← litAfter ("name=\"csrf-token\"".data) r4
  pure cap

/-- The token extractor as the original claim describes it: (a) a meta tag
with content-before-name ordering, (b) a hidden input with value-before-name
ordering, (c) a hidden input with value-after-name ordering; first match
decoded, empty string otherwise. -/
def claimTokenExtract (html : String) : String :=
  String.mk
    (match scanL metaContentFirstAt html.data with
     | some cap => decodeHtmlEntitiesL cap
     | none =>
       match scanL inputValueNameAt html.data with
       | some cap => decodeHtmlEntitiesL cap
       | none =>
         match scanL inputNameValueAt html.data with
         | some cap => decodeHtmlEntitiesL cap
         | none => [])

/-- The token extractor as the amended claim describes it: (a) a meta tag
with name-then-content attribute ordering, (b) a hidden input with
name-then-value ordering, (c) a hidden input with value-then-name ordering;
the first match wins and is entity-decoded; empty string when none match. -/
def specTokenExtract (html : String) : String :=
  String.mk
    (match (scanL metaTokenAt html.data) <|> (scanL inputNameValueAt html.data) <|>
        (scanL inputValueNameAt html.data) with
     | some raw => decodeHtmlEntitiesL raw
     | none => [])

/-- Whether a result row's profile anchor normalizes to the target. -/
def rowMatchesTarget (normalizedTarget : String) (row : List Char) : Bool :=
  match findLinkedInHref row with
  | some v => decide (normalizeLinkedinUrl (String.mk v) = normalizedTarget)
  | none => false

/-- The search-result matcher as the original claim describes it: the
detail-page path of the first row whose profile anchor matches the
normalized target (none when that row carries no detail-page link, when no
row matches, or when there is no table). -/
def claimFindMatch (html targetLinkedinUrl : String) : Option String :=
  let normalizedTarget := normalizeLinkedinUrl targetLinkedinUrl
  match tableContent html.data with
  | none => none
  | some t =>
    match ((rowsOf t).drop 1).find? (fun row => rowMatchesTarget normalizedTarget row) with
    | some row => (findCandPath row).map String.mk
    | none => none

/-- The search-result matcher as the amended claim describes it: the
detail-page path of the first row that both matches the normalized target
and contains a detail-page link; rows that match but carry no such link are
skipped. -/
def specFindMatch (html targetLinkedinUrl : String) : Option String :=
  let normalizedTarget := normalizeLinkedinUrl targetLinkedinUrl
  match tableContent html.data with
  | none => none
  | some t =>
    match ((rowsOf t).drop 1).find? (fun row =>
        rowMatchesTarget normalizedTarget row && (findCandPath row).isSome) with
    | some row => (findCandPath row).map String.mk
    | none => none

/-- The lookup orchestration as the claim describes it: ensure the session
(AuthError on failure, a structured error when it throws); then strategy A,
then B, then C only when a name hint is present; Found with the first
match, NotFound when all attempted strategies miss. -/
def specLookup (env : Env) (linkedinUrl firstName lastName : String) : LookupResult :=
  match (ensureLoggedIn env).1 with
  | .error e => .errorResult (jsErrMessage e ("Failed to look up candidate."))
  | .ok false =>
    .errorResult
      ("Not authenticated with Parker. Open extension settings to configure credentials.")
  | .ok true =>
    match (lookupByUrlCheck env linkedinUrl).1 <|> (lookupByNameSearch env linkedinUrl).1 <|>
        (if firstName = "" ∧ lastName = "" then none
         else (lookupByExplicitName env linkedinUrl firstName lastName).1) with
    | some c => .found (withLinkedinFallback c linkedinUrl)
    | none => .notFound

/-- A date token of the shape `\d{1,2}/\d{1,2}/\d{2,4}`, consuming the
whole string. -/
def isDateTokenL (s : List Char) : Bool :=
  match s.dropWhile Char.isDigit with
  | '/' :: r2 =>
    match r2.dropWhile Char.isDigit with
    | '/' :: c =>
      c.all Char.isDigit &&
        decide (1 ≤ (s.takeWhile Char.isDigit).length ∧ (s.takeWhile Char.isDigit).length ≤ 2 ∧
          1 ≤ (r2.takeWhile Char.isDigit).length ∧ (r2.takeWhile Char.isDigit).length ≤ 2 ∧
          2 ≤ c.length ∧ c.length ≤ 4)
    | _ => false
  | _ => false

/-- `isDateTokenL` on strings. -/
def isDateToken (s : String) : Bool := isDateTokenL s.data

/-- No option of the owner select matches the configured email
(case-insensitively, label trimmed). -/
def noOptionMatches (content : List Char) (email : String) : Bool :=
  (optionsOf content).all (fun p => !(lowerL (jsTrimL p.2) == lowerL email.data))

/-- The keys always present in the creation payload, in source order. -/
def createPayloadKeys : List String :=
  ["authenticity_token", "candidate[first_name]", "candidate[last_name]",
   "candidate[linkedin_url]", "candidate[sourced_date]", "commit"]

/-- The owner-related keys added only when an owner id was resolved. -/
def ownerPayloadKeys : List String :=
  ["candidate[candidate_owner_id]", "candidate[sourced_by_id]"]

/-- A helper: an OK response with the given resolved URL and body. -/
def okResponse (u b : String) : Except String Response :=
  .ok { ok := true, status := 200, url := u, body := b }

/-- The existence-check form page served in the witness environment. -/
def checkPageResp : Response :=
  { ok := true, status := 200, url := PARKER_BASE ++ "/candidates/linkedin_url_check",
    body := "<meta name=\"csrf-token\" content=\"tok\">" }

/-- The detail-page response the witness existence check resolves to. -/
def alreadyResp : Response :=
  { ok := true, status := 200, url := PARKER_BASE ++ "/candidates/42",
    body := "<h1>Jane Doe</h1>" }

/-- A concrete environment in which the session is live and the existence
check resolves to the detail page of candidate 42 (used as witness input). -/
def envAlreadyExists : Env :=
  { respond := fun r =>
      match r with
      | .get u =>
        if u = PARKER_BASE ++ "/" then okResponse (PARKER_BASE ++ "/") ("home sign_out")
        else if u = PARKER_BASE ++ "/candidates/linkedin_url_check" then
          okResponse u ("<meta name=\"csrf-token\" content=\"tok\">")
        else .error ("unexpected get")
      | .post u _ =>
        if u = PARKER_BASE ++ "/candidates/check_linkedin_url" then
          okResponse (PARKER_BASE ++ "/candidates/42") ("<h1>Jane Doe</h1>")
        else .error ("unexpected post")
  , storageCreds := .ok (some ("a@b.com"), some ("pw"))
  , today := "2026-10-12" }

/- ── Helper lemmas ───────────────────────────────────────────────────────── -/

theorem jsLowerChar_idem (c : Char) : jsLowerChar (jsLowerChar c) = jsLowerChar c := by
  by_cases h : 'A' ≤ c ∧ c ≤ 'Z'
  · have hstep : jsLowerChar c = Char.ofNat (c.toNat + 32) := by rw [jsLowerChar, if_pos h]
    rw [hstep]
    have y1 : (65 : Nat) ≤ c.val.toNat := h.1
    have y2 : c.val.toNat ≤ 90 := h.2
    have hv : Nat.isValidChar (c.toNat + 32) := by
      left
      show c.toNat + 32 < 55296
      have he : c.toNat = c.val.toNat := rfl
      omega
    have hd : (Char.ofNat (c.toNat + 32)).toNat = c.toNat + 32 := by
      rw [Char.ofNat, dif_pos hv]
      exact rfl
    rw [jsLowerChar, if_neg]
    rintro ⟨-, hb⟩
    have z2 : (Char.ofNat (c.toNat + 32)).val.toNat ≤ 90 := hb
    have hz : (Char.ofNat (c.toNat + 32)).val.toNat = (Char.ofNat (c.toNat + 32)).toNat := rfl
    have he : c.toNat = c.val.toNat := rfl
    omega
  · have hstep : jsLowerChar c = c := by rw [jsLowerChar, if_neg h]
    rw [hstep, hstep]

theorem mem_lowerL (c : Char) (s : List Char) (h : c ∈ lowerL s) : jsLowerChar c = c := by
  rw [lowerL, List.mem_map] at h
  obtain ⟨a, -, rfl⟩ := h
  exact jsLowerChar_idem a

theorem lowerL_eq_self (s : List Char) (h : ∀ c ∈ s, jsLowerChar c = c) : lowerL s = s := by
  induction s with
  | nil => rfl
  | cons c r ih =>
    rw [lowerL, List.map_cons, h c (List.mem_cons_self c r)]
    rw [lowerL] at ih
    rw [ih (fun x hx => h x (List.mem_cons_of_mem c hx))]

theorem mem_jsTrimL (c : Char) (s : List Char) (h : c ∈ jsTrimL s) : c ∈ s := by
  rw [jsTrimL, List.mem_reverse] at h
  have h1 := (List.dropWhile_sublist (l := (s.dropWhile Char.isWhitespace).reverse)
    (p := Char.isWhitespace)).subset h
  rw [List.mem_reverse] at h1
  exact (List.dropWhile_sublist (l := s) (p := Char.isWhitespace)).subset h1

theorem mem_stripTrailingSlashesL (c : Char) (s : List Char) (h : c ∈ stripTrailingSlashesL s) :
    c ∈ s := by
  rw [stripTrailingSlashesL, List.mem_reverse] at h
  have h1 := (List.dropWhile_sublist (l := s.reverse) (p := fun d => d = '/')).subset h
  rw [List.mem_reverse] at h1
  exact h1

theorem mem_replaceFirstL (c : Char) (pat repl s : List Char) (h : c ∈ replaceFirstL pat repl s) :
    c ∈ s ∨ c ∈ repl := by
  induction s with
  | nil => rw [replaceFirstL] at h; cases h
  | cons x r ih =>
    rw [replaceFirstL] at h
    by_cases hp : pat ≠ [] ∧ pat.isPrefixOf (x :: r)
    · rw [if_pos hp, List.mem_append] at h
      rcases h with h | h
      · right; exact h
      · left; exact (List.drop_subset _ (x :: r)) h
    · rw [if_neg hp, List.mem_cons] at h
      rcases h with rfl | h
      · left; exact List.mem_cons_self c r
      · rcases ih h with h1 | h1
        · left; exact List.mem_cons_of_mem x h1
        · right; exact h1

theorem replaceFirstL_eq_self (pat repl s : List Char) (h : occursSubL pat s = false) :
    replaceFirstL pat repl s = s := by
  induction s with
  | nil => rfl
  | cons x r ih =>
    rw [occursSubL, Bool.or_eq_false_iff] at h
    rw [replaceFirstL, if_neg, ih h.2]
    rintro ⟨-, hpre⟩
    rw [h.1] at hpre
    cases hpre

theorem dropWhile_dropWhile (p : Char → Bool) (l : List Char) :
    (l.dropWhile p).dropWhile p = l.dropWhile p := by
  induction l with
  | nil => rfl
  | cons c r ih =>
    by_cases hc : p c = true
    · rw [List.dropWhile_cons_of_pos hc, ih]
    · rw [List.dropWhile_cons_of_neg hc, List.dropWhile_cons_of_neg hc]

theorem stripTrailingSlashesL_idem (s : List Char) :
    stripTrailingSlashesL (stripTrailingSlashesL s) = stripTrailingSlashesL s := by
  unfold stripTrailingSlashesL
  rw [List.reverse_reverse, dropWhile_dropWhile]

theorem lowerL_normalizeL (s : List Char) : lowerL (normalizeL s) = normalizeL s := by
  apply lowerL_eq_self
  intro c hc
  have hrepl : ∀ x ∈ ("https://linkedin.com".data), jsLowerChar x = x := by decide
  unfold normalizeL at hc
  have h3 := mem_stripTrailingSlashesL c _ hc
  rcases mem_replaceFirstL c _ _ _ h3 with h2 | h2
  · rcases mem_replaceFirstL c _ _ _ h2 with h1 | h1
    · rcases mem_replaceFirstL c _ _ _ h1 with h0 | h0
      · exact mem_lowerL c s (mem_jsTrimL c _ h0)
      · exact hrepl c h0
    · exact hrepl c h1
  · exact hrepl c h2

theorem stripTrailing_normalizeL (s : List Char) :
    stripTrailingSlashesL (normalizeL s) = normalizeL s := by
  conv_lhs => rw [normalizeL]
  rw [stripTrailingSlashesL_idem]
  rfl

theorem data_mk (l : List Char) : (String.mk l).data = l := rfl

/-- Claim C7 — counterexample.  The spec asserts `normalize` is idempotent
for all URLs; on a URL containing a second occurrence of a rewritten prefix
(here in a query parameter) a second application rewrites again. -/
theorem normalize_idem_counterexample :
    (normalizeLinkedinUrl (normalizeLinkedinUrl
        ("http://www.linkedin.com/in/jane?next=http://www.linkedin.com/in/tarzan"))
      == normalizeLinkedinUrl
        ("http://www.linkedin.com/in/jane?next=http://www.linkedin.com/in/tarzan")) = false := by
  decide

/-- Claim C7 (amended): `normalize` is idempotent on every URL whose
normalized form is trim-stable and contains no further occurrence of the
three rewritten linkedin.com prefixes (in particular on all ordinary
profile URLs); and the two example URLs both normalize to
`https://linkedin.com/in/jane-doe-12345`.  Idempotence fails in general
when a rewritten prefix occurs a second time. -/
theorem normalize_idem_amended (u : String)
    (h1 : occursSubL ("https://www.linkedin.com".data) (normalizeL u.data) = false)
    (h2 : occursSubL ("http://www.linkedin.com".data) (normalizeL u.data) = false)
    (h3 : occursSubL ("http://linkedin.com".data) (normalizeL u.data) = false)
    (h4 : jsTrimL (normalizeL u.data) = normalizeL u.data) :
    normalizeLinkedinUrl (normalizeLinkedinUrl u) = normalizeLinkedinUrl u
    ∧ normalizeLinkedinUrl ("https://WWW.LinkedIn.com/in/Jane-Doe-12345/")
        = "https://linkedin.com/in/jane-doe-12345"
    ∧ normalizeLinkedinUrl ("http://linkedin.com/in/jane-doe-12345")
        = "https://linkedin.com/in/jane-doe-12345" := by
  refine ⟨?_, by decide, by decide⟩
  show String.mk (normalizeL (String.mk (normalizeL u.data)).data) = String.mk (normalizeL u.data)
  rw [data_mk]
  conv_lhs => rw [normalizeL]
  rw [lowerL_normalizeL, h4, replaceFirstL_eq_self _ _ _ h1, replaceFirstL_eq_self _ _ _ h2,
    replaceFirstL_eq_self _ _ _ h3, stripTrailing_normalizeL]

/-- Witness for the amended C7 theorem at a concrete URL. -/
theorem normalize_idem_amended_witness :
    (occursSubL ("https://www.linkedin.com".data)
        (normalizeL ("https://linkedin.com/in/xyz").data) = false
      ∧ occursSubL ("http://www.linkedin.com".data)
        (normalizeL ("https://linkedin.com/in/xyz").data) = false
      ∧ occursSubL ("http://linkedin.com".data)
        (normalizeL ("https://linkedin.com/in/xyz").data) = false
      ∧ jsTrimL (normalizeL ("https://linkedin.com/in/xyz").data)
        = normalizeL ("https://linkedin.com/in/xyz").data)
    ∧ (normalizeLinkedinUrl (normalizeLinkedinUrl ("https://linkedin.com/in/xyz"))
        = normalizeLinkedinUrl ("https://linkedin.com/in/xyz")
      ∧ normalizeLinkedinUrl ("https://WWW.LinkedIn.com/in/Jane-Doe-12345/")
        = "https://linkedin.com/in/jane-doe-12345"
      ∧ normalizeLinkedinUrl ("http://linkedin.com/in/jane-doe-12345")
        = "https://linkedin.com/in/jane-doe-12345") :=
  ⟨⟨by decide, by decide, by decide, by decide⟩,
    normalize_idem_amended ("https://linkedin.com/in/xyz") (by decide) (by decide) (by decide)
      (by decide)⟩

/-- Claim C8 — counterexample.  The spec asserts every URL's normalized
form has its scheme forced to https and `www.` stripped; a non-linkedin
host is left untouched. -/
theorem normalize_scheme_counterexample :
    normalizeLinkedinUrl ("http://www.example.com/") = "http://www.example.com"
    ∧ (("https".data).isPrefixOf (normalizeLinkedinUrl ("http://www.example.com/")).data) = false := by
  constructor
  · decide
  · decide

/-- Claim C8 (amended): for every URL the normalized form is lowercase and
free of trailing slashes; the https-forcing and `www.`-stripping rewrites
apply only to the recognized linkedin.com prefix forms (exhibited on the
three recognized forms), not to arbitrary hosts. -/
theorem normalize_shape_amended (u : String) :
    lowerL (normalizeLinkedinUrl u).data = (normalizeLinkedinUrl u).data
    ∧ stripTrailingSlashesL (normalizeLinkedinUrl u).data = (normalizeLinkedinUrl u).data
    ∧ normalizeLinkedinUrl ("HTTPS://WWW.LinkedIn.com/in/Ann/") = "https://linkedin.com/in/ann"
    ∧ normalizeLinkedinUrl ("http://www.linkedin.com/in/ann") = "https://linkedin.com/in/ann"
    ∧ normalizeLinkedinUrl ("http://linkedin.com/in/ann///") = "https://linkedin.com/in/ann" := by
  refine ⟨?_, ?_, by decide, by decide, by decide⟩
  · rw [data_mk]; exact lowerL_normalizeL u.data
  · rw [data_mk]; exact stripTrailing_normalizeL u.data

theorem isDigit_not_letter (c : Char) (h : c.isDigit = true) : isAsciiLetter c = false := by
  rw [Char.isDigit, Bool.and_eq_true, decide_eq_true_eq, decide_eq_true_eq] at h
  obtain ⟨h1, h2⟩ := h
  have y1 : (48 : Nat) ≤ c.val.toNat := h1
  have y2 : c.val.toNat ≤ 57 := h2
  rw [isAsciiLetter, decide_eq_false_iff_not]
  rintro (⟨ha, hb⟩ | ⟨ha, hb⟩)
  · have x1 : (97 : Nat) ≤ c.val.toNat := ha
    omega
  · have x1 : (65 : Nat) ≤ c.val.toNat := ha
    omega

theorem all_isDigit_false_of_dash (l : List Char) (hl : '-' ∈ l) :
    l.all Char.isDigit = false := by
  cases hb : l.all Char.isDigit with
  | false => rfl
  | true => exact absurd (List.all_eq_true.mp hb '-' hl) (by decide)

theorem idSuffixTail_false_of_dash (t : List Char) (h : '-' ∈ t) : idSuffixTail t = false := by
  cases t with
  | nil => cases h
  | cons c rest =>
    rw [idSuffixTail]
    by_cases hc : isAsciiLetter c = true
    · rw [if_pos hc]
      have hcd : ¬ c = '-' := by
        rintro rfl
        exact absurd hc (by decide)
      have hm : '-' ∈ rest := by
        rcases List.mem_cons.mp h with he | hm
        · exact absurd he.symm hcd
        · exact hm
      rw [all_isDigit_false_of_dash rest hm, Bool.false_and]
    · rw [if_neg hc, all_isDigit_false_of_dash (c :: rest) h, Bool.false_and]

theorem stripIdSuffix_concat (pre tail : List Char) (ht : idSuffixTail tail = true) :
    stripIdSuffix (pre ++ '-' :: tail) = pre := by
  induction pre with
  | nil =>
    rw [List.nil_append, stripIdSuffix, ht]
    simp
  | cons p ps ih =>
    rw [List.cons_append, stripIdSuffix,
      idSuffixTail_false_of_dash (ps ++ '-' :: tail) (by simp), Bool.and_false, if_neg (by simp),
      ih]

/-- Claim C4 — counterexample.  The claim's strip rule (`a hyphen followed
by an alphanumeric token of 5 or more characters`) would strip `-smith`
from `john-smith`; the code's rule (optional single letter then five or
more digits) does not. -/
theorem tokensFromSlug_counterexample :
    (claimTokensFromSlug ("john-smith") == tokensFromSlug ("john-smith")) = false
    ∧ tokensFromSlug ("john-smith") = ["john", "smith"]
    ∧ claimTokensFromSlug ("john-smith") = ["john"] := by
  refine ⟨by decide, by decide, by decide⟩

/-- Claim C4 (amended): the slug-token derivation strips a trailing
identifier suffix consisting of a hyphen followed by an optional single
ASCII letter and then five or more digits (not an arbitrary alphanumeric
token), splits the remainder on hyphens and keeps tokens of length at least
two; both quoted examples hold. -/
theorem tokensFromSlug_strip_amended (pre ds : List Char) (c0 : Char)
    (hds : ds.all Char.isDigit = true) (hlen : 5 ≤ ds.length) (hc : isAsciiLetter c0 = true) :
    tokensFromSlug (String.mk (pre ++ '-' :: ds))
      = ((splitCharL '-' pre).filter (fun p => 1 < p.length)).map String.mk
    ∧ tokensFromSlug (String.mk (pre ++ '-' :: c0 :: ds))
      = ((splitCharL '-' pre).filter (fun p => 1 < p.length)).map String.mk
    ∧ tokensFromSlug ("kaidi-cao-398131117") = ["kaidi", "cao"]
    ∧ tokensFromSlug ("anshulsaha") = ["anshulsaha"] := by
  have htail : idSuffixTail ds = true := by
    cases ds with
    | nil => cases hlen
    | cons d rest =>
      rw [idSuffixTail]
      rw [List.all_cons, Bool.and_eq_true] at hds
      rw [if_neg (by rw [isDigit_not_letter d hds.1]; exact Bool.false_ne_true)]
      rw [List.all_cons, hds.1, hds.2, Bool.true_and, Bool.true_and]
      rw [List.length_cons] at hlen
      exact decide_eq_true hlen
  have htail2 : idSuffixTail (c0 :: ds) = true := by
    rw [idSuffixTail, if_pos hc, hds, Bool.true_and]
    exact decide_eq_true hlen
  refine ⟨?_, ?_, by decide, by decide⟩
  · rw [tokensFromSlug, data_mk, stripIdSuffix_concat pre ds htail]
  · rw [tokensFromSlug, data_mk, show ('-' :: c0 :: ds) = '-' :: (c0 :: ds) from rfl,
      stripIdSuffix_concat pre (c0 :: ds) htail2]

theorem scanL_some {α : Type} (f : List Char → Option α) (P : α → Prop)
    (hf : ∀ t x, f t = some x → P x) : ∀ s x, scanL f s = some x → P x := by
  intro s
  induction s with
  | nil =>
    intro x hx
    rw [scanL] at hx
    exact hf [] x hx
  | cons c r ih =>
    intro x hx
    rw [scanL] at hx
    cases h1 : f (c :: r) with
    | some y =>
      rw [h1] at hx
      cases hx
      exact hf (c :: r) x h1
    | none =>
      rw [h1] at hx
      exact ih x hx

theorem grabDigits_some (k : Nat) (s d r : List Char) (h : grabDigits k s = some (d, r)) :
    d.length = k ∧ d.all Char.isDigit = true := by
  rw [grabDigits] at h
  split at h
  · cases h
    rename_i hc
    rw [Bool.and_eq_true, decide_eq_true_eq] at hc
    exact hc
  · cases h

theorem takeWhile_digits_append (a r : List Char) (ha : a.all Char.isDigit = true) :
    (a ++ '/' :: r).takeWhile Char.isDigit = a := by
  induction a with
  | nil => rw [List.nil_append, List.takeWhile_cons_of_neg (by decide)]
  | cons x xs ih =>
    rw [List.all_cons, Bool.and_eq_true] at ha
    rw [List.cons_append, List.takeWhile_cons_of_pos ha.1, ih ha.2]

theorem dropWhile_digits_append (a r : List Char) (ha : a.all Char.isDigit = true) :
    (a ++ '/' :: r).dropWhile Char.isDigit = '/' :: r := by
  induction a with
  | nil => rw [List.nil_append, List.dropWhile_cons_of_neg (by decide)]
  | cons x xs ih =>
    rw [List.all_cons, Bool.and_eq_true] at ha
    rw [List.cons_append, List.dropWhile_cons_of_pos ha.1, ih ha.2]

theorem isDateTokenL_build (a b c : List Char)
    (ha : a.all Char.isDigit = true) (hb : b.all Char.isDigit = true)
    (hc : c.all Char.isDigit = true)
    (la : 1 ≤ a.length ∧ a.length ≤ 2) (lb : 1 ≤ b.length ∧ b.length ≤ 2)
    (lc : 2 ≤ c.length ∧ c.length ≤ 4) :
    isDateTokenL (a ++ '/' :: (b ++ '/' :: c)) = true := by
  rw [isDateTokenL]
  rw [dropWhile_digits_append a _ ha]
  simp only
  rw [dropWhile_digits_append b _ hb]
  simp only
  rw [hc, Bool.true_and, takeWhile_digits_append a _ ha, takeWhile_digits_append b _ hb]
  exact decide_eq_true ⟨la.1, la.2, lb.1, lb.2, lc.1, lc.2⟩

theorem dateCombo_isDate (k1 k2 k3 : Nat) (s d : List Char)
    (hk1 : 1 ≤ k1 ∧ k1 ≤ 2) (hk2 : 1 ≤ k2 ∧ k2 ≤ 2) (hk3 : 2 ≤ k3 ∧ k3 ≤ 4)
    (h : dateCombo k1 k2 k3 s = some d) : isDateTokenL d = true := by
  rw [dateCombo] at h
  cases h1 : grabDigits k1 s with
  | none => rw [h1] at h; cases h
  | some p1 =>
    obtain ⟨a, r1⟩ := p1
    rw [h1] at h
    simp only [Option.bind_eq_bind, Option.some_bind] at h
    cases h2 : litAfter ("/".data) r1 with
    | none => rw [h2] at h; cases h
    | some r2 =>
      rw [h2] at h
      simp only [Option.some_bind] at h
      cases h3 : grabDigits k2 r2 with
      | none => rw [h3] at h; cases h
      | some p2 =>
        obtain ⟨b, r3⟩ := p2
        rw [h3] at h
        simp only [Option.some_bind] at h
        cases h4 : litAfter ("/".data) r3 with
        | none => rw [h4] at h; cases h
        | some r4 =>
          rw [h4] at h
          simp only [Option.some_bind] at h
          cases h5 : grabDigits k3 r4 with
          | none => rw [h5] at h; cases h
          | some p3 =>
            obtain ⟨c, r5⟩ := p3
            rw [h5] at h
            simp only [Option.some_bind, Option.pure_def] at h
            cases h
            obtain ⟨g1, g2⟩ := grabDigits_some k1 s a r1 h1
            obtain ⟨g3, g4⟩ := grabDigits_some k2 r2 b r3 h3
            obtain ⟨g5, g6⟩ := grabDigits_some k3 r4 c r5 h5
            exact isDateTokenL_build a b c g2 g4 g6 (by omega) (by omega) (by omega)

theorem orElse_some {α : Type} (a b : Option α) (x : α) (h : (a <|> b) = some x) :
    a = some x ∨ b = some x := by
  cases a with
  | some y => left; simpa using h
  | none => right; simpa using h

theorem matchDateFrom_isDate (s d : List Char) (h : matchDateFrom s = some d) :
    isDateTokenL d = true := by
  rw [matchDateFrom] at h
  rcases orElse_some _ _ _ h with h1 | h
  · exact dateCombo_isDate 2 2 4 s d (by omega) (by omega) (by omega) h1
  rcases orElse_some _ _ _ h with h1 | h
  · exact dateCombo_isDate 2 2 3 s d (by omega) (by omega) (by omega) h1
  rcases orElse_some _ _ _ h with h1 | h
  · exact dateCombo_isDate 2 2 2 s d (by omega) (by omega) (by omega) h1
  rcases orElse_some _ _ _ h with h1 | h
  · exact dateCombo_isDate 2 1 4 s d (by omega) (by omega) (by omega) h1
  rcases orElse_some _ _ _ h with h1 | h
  · exact dateCombo_isDate 2 1 3 s d (by omega) (by omega) (by omega) h1
  rcases orElse_some _ _ _ h with h1 | h
  · exact dateCombo_isDate 2 1 2 s d (by omega) (by omega) (by omega) h1
  rcases orElse_some _ _ _ h with h1 | h
  · exact dateCombo_isDate 1 2 4 s d (by omega) (by omega) (by omega) h1
  rcases orElse_some _ _ _ h with h1 | h
  · exact dateCombo_isDate 1 2 3 s d (by omega) (by omega) (by omega) h1
  rcases orElse_some _ _ _ h with h1 | h
  · exact dateCombo_isDate 1 2 2 s d (by omega) (by omega) (by omega) h1
  rcases orElse_some _ _ _ h with h1 | h
  · exact dateCombo_isDate 1 1 4 s d (by omega) (by omega) (by omega) h1
  rcases orElse_some _ _ _ h with h1 | h
  · exact dateCombo_isDate 1 1 3 s d (by omega) (by omega) (by omega) h1
  exact dateCombo_isDate 1 1 2 s d (by omega) (by omega) (by omega) h

theorem dateScan_succ (f : Nat) (s : List Char) :
    dateScan (f + 1) s
      = (match matchDateFrom s with
         | some d => some d
         | none =>
           match s with
           | [] => none
           | _ :: rest => dateScan f rest) := by
  cases s <;> rfl

theorem dateScan_isDate : ∀ (fuel : Nat) (s d : List Char), dateScan fuel s = some d →
    isDateTokenL d = true := by
  intro fuel
  induction fuel with
  | zero =>
    intro s d h
    exact matchDateFrom_isDate s d h
  | succ f ih =>
    intro s d h
    rw [dateScan_succ] at h
    cases hm : matchDateFrom s with
    | some x =>
      rw [hm] at h
      cases h
      exact matchDateFrom_isDate s d hm
    | none =>
      rw [hm] at h
      cases s with
      | nil => cases h
      | cons x rest => exact ih rest d h

theorem timelineLabelAt_isDate (lbl : List Char) : ∀ (t d : List Char),
    timelineLabelAt lbl t = some d → isDateTokenL d = true := by
  intro t d h
  rw [timelineLabelAt] at h
  cases h1 : litAfterCI lbl t with
  | none => rw [h1] at h; cases h
  | some r =>
    rw [h1] at h
    simp only [Option.bind_eq_bind, Option.some_bind] at h
    exact dateScan_isDate 300 r d h

theorem timelineDate_shape (html lbl : List Char) :
    timelineDate html lbl = "N/A" ∨ isDateToken (timelineDate html lbl) = true := by
  rw [timelineDate]
  cases hs : scanL (timelineLabelAt lbl) html with
  | none => left; rfl
  | some d =>
    right
    rw [isDateToken, data_mk]
    exact scanL_some (timelineLabelAt lbl) (fun x => isDateTokenL x = true)
      (timelineLabelAt_isDate lbl) html d hs

/-- Claim C3: for every HTML string and resolved URL the parsed timeline has
exactly 6 entries carrying the fixed milestone labels in order, each date
being either a matched `\d{1,2}/\d{1,2}/\d{2,4}` token or `N/A`; and on the
minimal page `<h1>Jane Doe</h1>` the record has name `Jane Doe`, no
sourced-by, owner, location or linkedin field, and all six dates `N/A`. -/
theorem parseCandidatePage_timeline_invariant (html url : String) :
    ((parseCandidatePage html url).timeline).map (fun e => e.label) = timelineLabels
    ∧ (parseCandidatePage html url).timeline.length = 6
    ∧ ((parseCandidatePage html url).timeline).all
        (fun e => e.date == "N/A" || isDateToken e.date) = true
    ∧ (parseCandidatePage ("<h1>Jane Doe</h1>") url).name = some ("Jane Doe")
    ∧ (parseCandidatePage ("<h1>Jane Doe</h1>") url).sourced_by = none
    ∧ (parseCandidatePage ("<h1>Jane Doe</h1>") url).current_owner = none
    ∧ (parseCandidatePage ("<h1>Jane Doe</h1>") url).location = none
    ∧ (parseCandidatePage ("<h1>Jane Doe</h1>") url).linkedin_url = none
    ∧ (parseCandidatePage ("<h1>Jane Doe</h1>") url).timeline
        = timelineLabels.map (fun lbl => { label := lbl, date := "N/A" }) := by
  have ht : (parseCandidatePage html url).timeline
      = timelineLabels.map (fun lbl => { label := lbl, date := timelineDate html.data lbl.data }) :=
    rfl
  refine ⟨?_, ?_, ?_, rfl, rfl, rfl, rfl, rfl, rfl⟩
  · rw [ht, List.map_map]
    rfl
  · rw [ht, List.length_map]
    rfl
  · rw [ht, List.all_eq_true]
    intro e he
    rw [List.mem_map] at he
    obtain ⟨lbl, -, rfl⟩ := he
    rcases timelineDate_shape html.data lbl.data with hd | hd
    · rw [Bool.or_eq_true, beq_iff_eq]
      left
      exact hd
    · rw [Bool.or_eq_true]
      right
      exact hd

theorem candidateIdAt_ne_nil (t ds : List Char) (h : candidateIdAt t = some ds) : ds ≠ [] := by
  rw [candidateIdAt] at h
  cases h1 : litAfter ("/candidates/".data) t with
  | none => rw [h1] at h; cases h
  | some r =>
    rw [h1] at h
    simp only [Option.bind_eq_bind, Option.some_bind] at h
    split at h
    · cases h
    · cases h
      rename_i hne
      intro hnil
      rw [hnil] at hne
      exact hne rfl

theorem extractCandidateId_ne_nil (url ds : List Char) (h : extractCandidateId url = some ds) :
    ds ≠ [] :=
  scanL_some candidateIdAt (fun x => x ≠ []) candidateIdAt_ne_nil url ds h

/-- Claim C10 — counterexample.  The claim says `id` is empty when the
resolved URL has no numeric `/candidates/` suffix; the code matches the
pattern anywhere in the URL, so `/candidates/12/edit` (which does not end
in a numeric detail-page suffix) still yields id `12`. -/
theorem parse_id_suffix_counterexample :
    (parseCandidatePage ("") ("/candidates/12/edit")).id = "12"
    ∧ hasCandidatesIdSuffix ("/candidates/12/edit") = false := by
  exact ⟨rfl, by decide⟩

/-- Claim C10 (amended): the extraction functions are total Lean functions;
`parseCandidatePage` always carries the url and a 6-entry timeline, its `id`
is empty exactly when the URL contains no `/candidates/<digits>` occurrence
anywhere (not only as a suffix), and `submissions` is empty when the page
has no table. -/
theorem parse_total_shape_amended (html url : String) (hnt : tableContent html.data = none) :
    (parseCandidatePage html url).url = url
    ∧ (parseCandidatePage html url).timeline.length = 6
    ∧ ((parseCandidatePage html url).id = "" ↔ extractCandidateId url.data = none)
    ∧ (parseCandidatePage html url).submissions = [] := by
  refine ⟨rfl, ?_, ?_, ?_⟩
  · have ht : (parseCandidatePage html url).timeline
        = timelineLabels.map
          (fun lbl => { label := lbl, date := timelineDate html.data lbl.data }) := rfl
    rw [ht, List.length_map]
    rfl
  · have hid : (parseCandidatePage html url).id
        = (match extractCandidateId url.data with
           | some ds => String.mk ds
           | none => "") := rfl
    rw [hid]
    cases hE : extractCandidateId url.data with
    | none => simp
    | some ds =>
      have hne := extractCandidateId_ne_nil url.data ds hE
      have hmk : String.mk ds ≠ "" := by
        intro hx
        exact hne (congrArg String.data hx)
      simp only
      exact iff_of_false hmk (by simp)
  · have hsub : (parseCandidatePage html url).submissions = parseSubmissionsTable html.data := rfl
    rw [hsub, parseSubmissionsTable, hnt]

/-- Witness for the amended C10 theorem at a concrete page and URL. -/
theorem parse_total_shape_amended_witness :
    (tableContent ("<h1>Jane</h1>").data = none)
    ∧ ((parseCandidatePage ("<h1>Jane</h1>") ("/candidates/5")).url = "/candidates/5"
      ∧ (parseCandidatePage ("<h1>Jane</h1>") ("/candidates/5")).timeline.length = 6
      ∧ ((parseCandidatePage ("<h1>Jane</h1>") ("/candidates/5")).id = ""
          ↔ extractCandidateId ("/candidates/5").data = none)
      ∧ (parseCandidatePage ("<h1>Jane</h1>") ("/candidates/5")).submissions = []) :=
  ⟨by decide, parse_total_shape_amended ("<h1>Jane</h1>") ("/candidates/5") (by decide)⟩

/-- Claim C5 — counterexample.  The claim lists the tried shapes as
(a) content-before-name meta, (b) value-before-name input,
(c) value-after-name input; the code's shapes are the attribute-order
mirror images, so a meta tag whose content precedes its name is matched by
the claim's extractor and missed by the code's. -/
theorem extractToken_order_counterexample :
    (claimTokenExtract ("<meta content=\"abc\" name=\"csrf-token\">")
      == extractCsrfToken ("<meta content=\"abc\" name=\"csrf-token\">")) = false
    ∧ extractCsrfToken ("<meta content=\"abc\" name=\"csrf-token\">") = ""
    ∧ claimTokenExtract ("<meta content=\"abc\" name=\"csrf-token\">") = "abc" := by
  refine ⟨by decide, by decide, by decide⟩

/-- Claim C5 (amended): extractToken tries, in order, (a) a meta tag with
name-then-content attribute ordering, (b) a hidden input with
name-then-value ordering, (c) a hidden input with value-then-name ordering,
returns the first match with HTML entities decoded, and returns the empty
string when no shape matches; on the quoted meta example it returns
`abc&123`. -/
theorem extractToken_order_amended :
    (∀ html : String, extractCsrfToken html = specTokenExtract html)
    ∧ extractCsrfToken ("<meta name=\"csrf-token\" content=\"abc&amp;123\">") = "abc&123" := by
  constructor
  · intro html
    rw [extractCsrfToken, specTokenExtract, extractCsrfTokenL]
    cases h1 : scanL metaTokenAt html.data with
    | some cap => rfl
    | none =>
      cases h2 : scanL inputNameValueAt html.data with
      | some cap => rfl
      | none =>
        cases h3 : scanL inputValueNameAt html.data with
        | some cap => rfl
        | none => rfl
  · decide

theorem findRow_equiv (nt : String) : ∀ rows : List (List Char),
    rows.findSome? (fun row =>
      match findLinkedInHref row with
      | none => none
      | some v =>
        if normalizeLinkedinUrl (String.mk v) = nt then (findCandPath row).map String.mk
        else none)
    = (match rows.find? (fun row => rowMatchesTarget nt row && (findCandPath row).isSome) with
       | some row => (findCandPath row).map String.mk
       | none => none) := by
  intro rows
  induction rows with
  | nil => rfl
  | cons r rs ih =>
    rw [List.findSome?_cons]
    cases hh : findLinkedInHref r with
    | none =>
      have hm : rowMatchesTarget nt r = false := by rw [rowMatchesTarget, hh]
      rw [List.find?_cons_of_neg _ (by rw [hm, Bool.false_and]; exact Bool.false_ne_true)]
      simpa using ih
    | some v =>
      by_cases hn : normalizeLinkedinUrl (String.mk v) = nt
      · have hm : rowMatchesTarget nt r = true := by
          rw [rowMatchesTarget, hh]
          exact decide_eq_true hn
        cases hp : findCandPath r with
        | none =>
          rw [List.find?_cons_of_neg _ (by rw [hm, hp]; simp)]
          simp only [hn, if_true, eq_self_iff_true, Option.map_none]
          simpa using ih
        | some pth =>
          rw [List.find?_cons_of_pos _ (by rw [hm, hp]; rfl)]
          simp [hn, hp]
      · have hm : rowMatchesTarget nt r = false := by
          rw [rowMatchesTarget, hh]
          exact decide_eq_false hn
        rw [List.find?_cons_of_neg _ (by rw [hm, Bool.false_and]; exact Bool.false_ne_true)]
        simp only [hn, if_false]
        simpa [hn] using ih

set_option maxRecDepth 8000 in
/-- Claim C6 — counterexample.  A row can match the target URL while
carrying no detail-page link; the code then keeps scanning and returns a
later matching row's path, whereas the claim returns the path of the first
matching row (none here). -/
theorem findMatch_first_row_counterexample :
    (claimFindMatch
        ("<table><tr><th>h</th></tr><tr><td><a href=\"https://linkedin.com/in/j\">x</a></td></tr><tr><td><a href=\"https://linkedin.com/in/j\">x</a><a href=\"/candidates/99\">v</a></td></tr></table>")
        ("https://linkedin.com/in/j")
      == findLinkedInMatchInSearchResults
        ("<table><tr><th>h</th></tr><tr><td><a href=\"https://linkedin.com/in/j\">x</a></td></tr><tr><td><a href=\"https://linkedin.com/in/j\">x</a><a href=\"/candidates/99\">v</a></td></tr></table>")
        ("https://linkedin.com/in/j")) = false
    ∧ findLinkedInMatchInSearchResults
        ("<table><tr><th>h</th></tr><tr><td><a href=\"https://linkedin.com/in/j\">x</a></td></tr><tr><td><a href=\"https://linkedin.com/in/j\">x</a><a href=\"/candidates/99\">v</a></td></tr></table>")
        ("https://linkedin.com/in/j") = some ("/candidates/99")
    ∧ claimFindMatch
        ("<table><tr><th>h</th></tr><tr><td><a href=\"https://linkedin.com/in/j\">x</a></td></tr><tr><td><a href=\"https://linkedin.com/in/j\">x</a><a href=\"/candidates/99\">v</a></td></tr></table>")
        ("https://linkedin.com/in/j") = none := by
  refine ⟨by decide, by decide, by decide⟩

/-- Claim C6 (amended): the matcher takes the first table, skips the header
row, and returns the detail-page path of the first subsequent row that both
has a profile anchor normalizing to the normalized target and contains a
detail-page link; rows that match without such a link are skipped; none
when no such row exists or there is no table. -/
theorem findMatch_amended (html target : String) :
    findLinkedInMatchInSearchResults html target = specFindMatch html target := by
  rw [findLinkedInMatchInSearchResults, specFindMatch]
  cases ht : tableContent html.data with
  | none => rfl
  | some t => exact findRow_equiv (normalizeLinkedinUrl target) ((rowsOf t).drop 1)

theorem optionValueAt_ne_empty (region : List Char) (q : Nat) (ds : List Char)
    (h : optionValueAt region q = some ds) : ds.isEmpty = false := by
  rw [optionValueAt] at h
  split at h
  · cases h
  · rename_i hne
    split at h
    · cases h
      cases hb : (List.takeWhile Char.isDigit (List.drop (q + 7) region)).isEmpty with
      | false => rfl
      | true => exact absurd hb hne
    · cases h

theorem optionTagAt_value_ne_empty (s : List Char) (p : (List Char × List Char) × List Char)
    (h : optionTagAt s = some p) : p.1.1.isEmpty = false := by
  rw [optionTagAt] at h
  cases h1 : litAfterCI ("<option".data) s with
  | none => rw [h1] at h; cases h
  | some r =>
    rw [h1] at h
    simp only [Option.bind_eq_bind, Option.some_bind] at h
    cases hv : (((litPositions (lowerL ("value=\"".data))
        (lowerL (r.takeWhile (fun c => c ≠ '>'))))).reverse).findSome?
        (optionValueAt (r.takeWhile (fun c => c ≠ '>'))) with
    | none => rw [hv] at h; cases h
    | some ds =>
      rw [hv] at h
      obtain ⟨q, -, hq⟩ := List.exists_of_findSome?_eq_some hv
      have hds := optionValueAt_ne_empty _ q ds hq
      cases h2 : afterFirstGt r with
      | none => rw [h2] at h; cases h
      | some ag =>
        rw [h2] at h
        simp only [Option.bind_eq_bind, Option.some_bind] at h
        cases h3 : litAfterCI ("</option>".data)
            (ag.drop (ag.takeWhile (fun c => c ≠ '<')).length) with
        | none => rw [h3] at h; cases h
        | some rest =>
          rw [h3] at h
          simp only [Option.some_bind, Option.pure_def] at h
          cases h
          exact hds

theorem optionsLoop_value_ne_empty : ∀ (fuel : Nat) (content : List Char)
    (pr : List Char × List Char), pr ∈ optionsLoop fuel content → pr.1.isEmpty = false := by
  intro fuel
  induction fuel with
  | zero => intro content pr hm; cases hm
  | succ f ih =>
    intro content pr hm
    rw [optionsLoop] at hm
    cases hs : scanL optionTagAt content with
    | none => rw [hs] at hm; cases hm
    | some x =>
      rw [hs] at hm
      rcases List.mem_cons.mp hm with rfl | hm2
      · exact scanL_some optionTagAt (fun y => y.1.1.isEmpty = false) optionTagAt_value_ne_empty
          content x hs
      · exact ih x.2 pr hm2

/-- Claim C9: during creation the owner id comes from the owner select's
options by case-insensitive, whitespace-trimmed label equality with the
configured email; it is the empty string exactly when the email is empty,
the select element is absent, or no option matches; and the creation
payload carries the owner and sourced-by keys exactly when the resolver
returned a non-empty id. -/
theorem findOwnerId_payload_omission (html email tok fn ln url sd : String) :
    (findOwnerIdForEmail html email = "" ↔
      (email = "" ∨ selectBlock html.data = none
        ∨ noOptionMatches ((selectBlock html.data).getD []) email = true))
    ∧ (buildCreatePayload tok fn ln url sd (findOwnerIdForEmail html email)).map Prod.fst
      = createPayloadKeys
        ++ (if findOwnerIdForEmail html email = "" then [] else ownerPayloadKeys) := by
  constructor
  · by_cases he : email = ""
    · rw [findOwnerIdForEmail, if_pos he]
      exact iff_of_true rfl (Or.inl he)
    · rw [findOwnerIdForEmail, if_neg he]
      cases hs : selectBlock html.data with
      | none => exact iff_of_true rfl (Or.inr (Or.inl rfl))
      | some content =>
        rw [Option.getD_some]
        cases hf : (optionsOf content).findSome? (fun p =>
            if lowerL (jsTrimL p.2) = lowerL email.data then some p.1 else none) with
        | none =>
          apply iff_of_true
          · show (match (optionsOf content).findSome? (fun p =>
                if lowerL (jsTrimL p.2) = lowerL email.data then some p.1 else none) with
              | some v => String.mk v
              | none => "") = ""
            rw [hf]
          · right; right
            rw [noOptionMatches, List.all_eq_true]
            intro p hp
            have hnone := List.findSome?_eq_none_iff.mp hf p hp
            by_cases hcond : lowerL (jsTrimL p.2) = lowerL email.data
            · rw [if_pos hcond] at hnone
              cases hnone
            · rw [Bool.not_eq_true', beq_eq_false_iff_ne]
              exact hcond
        | some v =>
          obtain ⟨p, hp, hfp⟩ := List.exists_of_findSome?_eq_some hf
          have hcond : lowerL (jsTrimL p.2) = lowerL email.data := by
            by_contra hc
            rw [if_neg hc] at hfp
            cases hfp
          rw [if_pos hcond] at hfp
          cases hfp
          have hnv : p.1.isEmpty = false :=
            optionsLoop_value_ne_empty content.length content p hp
          apply iff_of_false
          · show ¬ (match (optionsOf content).findSome? (fun q =>
                if lowerL (jsTrimL q.2) = lowerL email.data then some q.1 else none) with
              | some w => String.mk w
              | none => "") = ""
            rw [hf]
            intro hmk
            have hz : p.1 = [] := congrArg String.data hmk
            rw [hz] at hnv
            cases hnv
          · rintro (hc | hc | hc)
            · exact he hc
            · cases hc
            · rw [noOptionMatches, List.all_eq_true] at hc
              have hcp := hc p hp
              rw [Bool.not_eq_true', beq_eq_false_iff_ne] at hcp
              exact hcp hcond
  · by_cases ho : findOwnerIdForEmail html email = ""
    · rw [if_pos ho, buildCreatePayload, if_pos ho]
      rfl
    · rw [if_neg ho, buildCreatePayload, if_neg ho]
      rfl

/-- Witness for the amended C4 theorem at concrete inputs. -/
theorem tokensFromSlug_strip_amended_witness :
    (("12345".data).all Char.isDigit = true ∧ 5 ≤ ("12345".data).length
      ∧ isAsciiLetter 'b' = true)
    ∧ (tokensFromSlug (String.mk (("john".data) ++ '-' :: ("12345".data)))
        = ((splitCharL '-' ("john".data)).filter (fun p => 1 < p.length)).map String.mk
      ∧ tokensFromSlug (String.mk (("john".data) ++ '-' :: 'b' :: ("12345".data)))
        = ((splitCharL '-' ("john".data)).filter (fun p => 1 < p.length)).map String.mk
      ∧ tokensFromSlug ("kaidi-cao-398131117") = ["kaidi", "cao"]
      ∧ tokensFromSlug ("anshulsaha") = ["anshulsaha"]) :=
  ⟨⟨by decide, by decide, by decide⟩,
    tokensFromSlug_strip_amended ("john".data) ("12345".data) 'b' (by decide) (by decide)
      (by decide)⟩

theorem doLogin_trace_no_creation (env : Env) (e p : String) :
    ((doLogin env e p).2).all (fun r => !(isCreationPost r)) = true := by
  rw [doLogin]
  split
  · simp [isCreationPost]
  · dsimp only
    split
    · simp [isCreationPost]
    · split <;> simp [isCreationPost] <;> decide

theorem isLoggedIn_trace (env : Env) :
    (isLoggedIn env).2 = [Request.get (PARKER_BASE ++ "/")] := by
  rw [isLoggedIn]
  cases hr : env.respond (Request.get (PARKER_BASE ++ "/")) <;> rfl

theorem ensureLoggedIn_trace_no_creation (env : Env) :
    ((ensureLoggedIn env).2).all (fun r => !(isCreationPost r)) = true := by
  rw [ensureLoggedIn]
  cases hI : isLoggedIn env with
  | mk li t1 =>
    have ht1 : t1 = [Request.get (PARKER_BASE ++ "/")] := by
      have h := isLoggedIn_trace env
      rw [hI] at h
      exact h
    subst ht1
    cases li with
    | true => simp [isCreationPost]
    | false =>
      dsimp only
      cases hS : env.storageCreds with
      | error e => simp [isCreationPost]
      | ok creds =>
        obtain ⟨em, pw⟩ := creds
        dsimp only
        by_cases hemp : em.getD "" = "" ∨ pw.getD "" = ""
        · rw [if_pos hemp]
          simp [isCreationPost]
        · rw [if_neg hemp]
          cases hD : doLogin env (em.getD "") (pw.getD "") with
          | mk lr t2 =>
            have ht2 : t2.all (fun r => !(isCreationPost r)) = true := by
              have h := doLogin_trace_no_creation env (em.getD "") (pw.getD "")
              rw [hD] at h
              exact h
            show (([Request.get (PARKER_BASE ++ "/")] ++ t2).all
              (fun r => !(isCreationPost r))) = true
            rw [List.all_append, ht2, Bool.and_true]
            decide

/-- Claim C1: when the creation flow's existence-check stage resolves to a
candidate detail-page URL (`/candidates/<digits>` at the end of the
resolved URL), `createCandidate` returns the already-exists result carrying
the record parsed from that page, and the request trace contains no POST to
the creation endpoint `/candidates`. -/
theorem createCandidate_already_exists_short_circuit
    (env : Env) (pg resp : Response) (fn ln url sd : String)
    (h1 : (ensureLoggedIn env).1 = Except.ok true)
    (h2 : env.respond (Request.get (PARKER_BASE ++ "/candidates/linkedin_url_check"))
      = Except.ok pg)
    (h3 : env.respond (Request.post (PARKER_BASE ++ "/candidates/check_linkedin_url")
        [("authenticity_token", extractCsrfToken pg.body), ("linkedin_url", url)])
      = Except.ok resp)
    (h4 : hasCandidatesIdSuffix resp.url = true) :
    (createCandidate env fn ln url sd).1
      = CreateResult.okResult true (parseCandidatePage resp.body resp.url)
    ∧ ((createCandidate env fn ln url sd).2).all (fun r => !(isCreationPost r)) = true := by
  cases hE : ensureLoggedIn env with
  | mk er t0 =>
    rw [hE] at h1
    have her : er = Except.ok true := h1
    subst her
    have hres : createCandidate env fn ln url sd
        = (CreateResult.okResult true (parseCandidatePage resp.body resp.url),
           t0 ++ [Request.get (PARKER_BASE ++ "/candidates/linkedin_url_check"),
             Request.post (PARKER_BASE ++ "/candidates/check_linkedin_url")
               [("authenticity_token", extractCsrfToken pg.body), ("linkedin_url", url)]]) := by
      simp only [createCandidate, hE, h2, h3, h4, if_true]
    rw [hres]
    constructor
    · rfl
    · have ht0 : t0.all (fun r => !(isCreationPost r)) = true := by
        have := ensureLoggedIn_trace_no_creation env
        rw [hE] at this
        exact this
      rw [List.all_append, ht0, Bool.true_and]
      simp only [List.all_cons, List.all_nil, isCreationPost]
      decide

/-- Witness for the C1 theorem on a concrete environment whose existence
check resolves to candidate 42. -/
theorem createCandidate_already_exists_witness :
    ((ensureLoggedIn envAlreadyExists).1 = Except.ok true
      ∧ envAlreadyExists.respond
          (Request.get (PARKER_BASE ++ "/candidates/linkedin_url_check"))
        = Except.ok checkPageResp
      ∧ envAlreadyExists.respond
          (Request.post (PARKER_BASE ++ "/candidates/check_linkedin_url")
            [("authenticity_token", extractCsrfToken checkPageResp.body),
             ("linkedin_url", "https://linkedin.com/in/jane")])
        = Except.ok alreadyResp
      ∧ hasCandidatesIdSuffix alreadyResp.url = true)
    ∧ ((createCandidate envAlreadyExists "Jane" "Doe" ("https://linkedin.com/in/jane") "").1
        = CreateResult.okResult true (parseCandidatePage alreadyResp.body alreadyResp.url)
      ∧ ((createCandidate envAlreadyExists "Jane" "Doe"
          ("https://linkedin.com/in/jane") "").2).all (fun r => !(isCreationPost r)) = true) :=
  ⟨⟨by decide, by decide, by decide, by decide⟩,
    createCandidate_already_exists_short_circuit envAlreadyExists checkPageResp alreadyResp
      "Jane" "Doe" ("https://linkedin.com/in/jane") ""
      (by decide) (by decide) (by decide) (by decide)⟩

/-- Claim C2: `lookupCandidate` equals the claim-shaped orchestration (auth
check first with AuthError on failure and a structured error when the
session layer throws; strategies A, B, then C only with a name hint; Found
on the first match), and it returns NotFound exactly when the session is
live and every attempted strategy misses. -/
theorem lookupCandidate_strategy_orchestration (env : Env) (url fn ln : String) :
    (lookupCandidate env url fn ln).1 = specLookup env url fn ln
    ∧ ((lookupCandidate env url fn ln).1 = LookupResult.notFound ↔
        ((ensureLoggedIn env).1 = Except.ok true
          ∧ (lookupByUrlCheck env url).1 = none
          ∧ (lookupByNameSearch env url).1 = none
          ∧ ((fn = "" ∧ ln = "") ∨ (lookupByExplicitName env url fn ln).1 = none))) := by
  cases hE : ensureLoggedIn env with
  | mk er t0 =>
    cases er with
    | error e =>
      constructor
      · simp [lookupCandidate, specLookup, hE]
      · simp [lookupCandidate, hE]
    | ok b =>
      cases b with
      | false =>
        constructor
        · simp [lookupCandidate, specLookup, hE]
        · simp [lookupCandidate, hE]
      | true =>
        cases hA : lookupByUrlCheck env url with
        | mk a ta =>
          cases a with
          | some c =>
            constructor
            · simp [lookupCandidate, specLookup, hE, hA]
            · simp [lookupCandidate, hE, hA]
          | none =>
            cases hB : lookupByNameSearch env url with
            | mk b2 tb =>
              cases b2 with
              | some c =>
                constructor
                · simp [lookupCandidate, specLookup, hE, hA, hB]
                · simp [lookupCandidate, hE, hA, hB]
              | none =>
                by_cases hif : fn = "" ∧ ln = ""
                · constructor
                  · simp [lookupCandidate, specLookup, hE, hA, hB, hif]
                  · simp [lookupCandidate, hE, hA, hB, hif]
                · cases hC : lookupByExplicitName env url fn ln with
                  | mk c3 tc =>
                    cases c3 with
                    | some c =>
                      constructor
                      · simp [lookupCandidate, specLookup, hE, hA, hB, hC, hif]
                      · simp [lookupCandidate, hE, hA, hB, hC, hif]
                    | none =>
                      constructor
                      · simp [lookupCandidate, specLookup, hE, hA, hB, hC, hif]
                      · simp [lookupCandidate, hE, hA, hB, hC, hif]

end Parker
